import Mathlib

/-!
Verification of the Piper speech-synthesis streaming adapter
(`PiperTTSAgent.tts_node` in `src/python-agent/agent.py`).

The adapter consumes a sequence of text fragments; for each non-blank
fragment it spawns one external synthesis process, writes the fragment
text to the process input, reads the process output stream in blocks of
`CHUNK_SAMPLES * BYTES_PER_SAMPLE` bytes, and yields one audio frame per
non-empty block; after the stream ends it awaits the process.

Text fragments are modelled as `List Char`, byte streams as `List Nat`;
the external process is an oracle giving, per fragment, either a clean
output stream, a launch failure, a write failure, or a mid-stream read
failure.
-/

/-- `PIPER_CH = 1` in the source (mono). -/
def PIPER_CH : Nat := 1

/-- `BYTES_PER_SAMPLE = 2 * PIPER_CH` in the source (int16 mono). -/
def BYTES_PER_SAMPLE : Nat := 2 * PIPER_CH

/-- `CHUNK_SAMPLES = PIPER_SR // 20` in the source (about 50 ms of audio). -/
def CHUNK_SAMPLES (sr : Nat) : Nat := sr / 20

/-- `read_size = CHUNK_SAMPLES * BYTES_PER_SAMPLE` in the source. -/
def readSize (sr : Nat) : Nat := CHUNK_SAMPLES sr * BYTES_PER_SAMPLE

/-- The `rtc.AudioFrame` value constructed by the source: raw bytes plus
sample-rate, channel-count and samples-per-channel metadata. -/
structure AudioFrame where
  data : List Nat
  sample_rate : Nat
  num_channels : Nat
  samples_per_channel : Nat
deriving DecidableEq

/-- The read loop of `tts_node` with explicit fuel (structural recursion so
that the kernel can evaluate it): `proc.stdout.read(read_size)` returns up
to `read_size` bytes of the remaining stream, and the loop breaks on an
empty read (a `read(0)` returns no bytes, so block size `0` yields no
blocks). -/
def readChunksFuel (n : Nat) : Nat → List Nat → List (List Nat)
  | 0, _ => []
  | _, [] => []
  | fuel + 1, b :: rest =>
      if n = 0 then []
      else (b :: rest).take n :: readChunksFuel n fuel ((b :: rest).drop n)

/-- The list of successive blocks of at most `n` bytes the read loop
obtains from stream `l`.  Each loop iteration with `0 < n` consumes at
least one byte, so `l.length` is enough fuel. -/
def readChunks (n : Nat) (l : List Nat) : List (List Nat) :=
  readChunksFuel n l.length l

/-- The frame the source yields for one block `buf`:
`samples_per_channel = len(buf) // BYTES_PER_SAMPLE`. -/
def mkFrame (sr : Nat) (buf : List Nat) : AudioFrame :=
  { data := buf, sample_rate := sr, num_channels := PIPER_CH,
    samples_per_channel := buf.length / BYTES_PER_SAMPLE }

/-- All frames the read loop yields for a full process output stream. -/
def framesOf (sr : Nat) (out : List Nat) : List AudioFrame :=
  (readChunks (readSize sr) out).map (mkFrame sr)

/-- The blank test of the source, `if not segment or not segment.strip()`:
true for the empty fragment and for whitespace-only fragments. -/
def isBlank (seg : List Char) : Bool := seg.all Char.isWhitespace

/-- Frames emitted for one fragment when the process writes `synth seg`
to its output stream: blank fragments are skipped. -/
def ttsFragment (sr : Nat) (synth : List Char → List Nat) (seg : List Char) :
    List AudioFrame :=
  if isBlank seg then [] else framesOf sr (synth seg)

/-- The whole generator `tts_node` on a fragment sequence, given the
process output oracle `synth`: the per-fragment frame lists in fragment
order. -/
def tts_node (sr : Nat) (synth : List Char → List Nat)
    (frags : List (List Char)) : List AudioFrame :=
  (frags.map (ttsFragment sr synth)).flatten

/-- Observable actions of one `tts_node` call: spawning the process,
writing the fragment text to its input, yielding a frame, awaiting the
process. -/
inductive Event where
  | spawn : Event
  | write : Event
  | emit : AudioFrame → Event
  | wait : Event
deriving DecidableEq

/-- Behaviour of the external process for one fragment: the launch can
fail, the write to its input can fail, a read of its output can fail
after delivering `preBytes`, or it runs to completion writing `out` and
exiting with `code`. -/
inductive ProcResult where
  | launchFail : ProcResult
  | writeFail : ProcResult
  | readFail : (preBytes : List Nat) → ProcResult
  | ok : (out : List Nat) → (code : Nat) → ProcResult
deriving DecidableEq

/-- Failures that propagate out of the generator. -/
inductive Failure where
  | launch : Failure
  | write : Failure
  | read : Failure
deriving DecidableEq

/-- Trace of one loop iteration of `tts_node` for fragment `seg` under
process behaviour `b`, with the failure that propagates, if any.
Mirrors the source: blank fragments are skipped before any process is
spawned; a launch failure raises before any event; a write failure
raises after the spawn; a read failure raises after the frames for the
delivered bytes, skipping `await proc.wait()` (the read loop has no
try/finally); a clean stream end is followed by `await proc.wait()`,
whose exit code is never inspected. -/
def fragRun (sr : Nat) (seg : List Char) (b : ProcResult) :
    List Event × Option Failure :=
  if isBlank seg then ([], none)
  else
    match b with
    | ProcResult.launchFail => ([], some Failure.launch)
    | ProcResult.writeFail => ([Event.spawn], some Failure.write)
    | ProcResult.readFail preBytes =>
        (Event.spawn :: Event.write :: (framesOf sr preBytes).map Event.emit,
         some Failure.read)
    | ProcResult.ok out _ =>
        (Event.spawn :: Event.write ::
           ((framesOf sr out).map Event.emit ++ [Event.wait]), none)

/-- Trace of a whole `tts_node` call: fragments are processed strictly in
order, and a failure ends the call (the exception propagates out of the
generator; later fragments are not processed). -/
def run (sr : Nat) : List (List Char × ProcResult) → List Event × Option Failure
  | [] => ([], none)
  | (seg, b) :: rest =>
      match fragRun sr seg b with
      | (es, some e) => (es, some e)
      | (es, none) =>
          let r := run sr rest
          (es ++ r.1, r.2)

/-- The frames yielded along a trace, in order. -/
def emitsOf (es : List Event) : List AudioFrame :=
  es.filterMap (fun e =>
    match e with
    | Event.emit f => some f
    | _ => none)

/-- How many processes a trace spawns. -/
def spawnCount (es : List Event) : Nat :=
  (es.filter (fun e =>
    match e with
    | Event.spawn => true
    | _ => false)).length

/-! Basic lemmas about the read loop. -/

theorem readChunksFuel_nil (n fuel : Nat) : readChunksFuel n fuel [] = [] := by
  cases fuel <;> rfl

theorem readChunksFuel_congr (n : Nat) :
    ∀ fuel₁ fuel₂ (l : List Nat), l.length ≤ fuel₁ → l.length ≤ fuel₂ →
      readChunksFuel n fuel₁ l = readChunksFuel n fuel₂ l := by
  intro fuel₁
  induction fuel₁ with
  | zero =>
      intro fuel₂ l h₁ h₂
      have hl : l = [] := List.eq_nil_of_length_eq_zero (Nat.le_zero.mp h₁)
      subst hl
      simp [readChunksFuel_nil]
  | succ f ih =>
      intro fuel₂ l h₁ h₂
      cases l with
      | nil => simp [readChunksFuel_nil]
      | cons b rest =>
          cases fuel₂ with
          | zero => simp at h₂
          | succ f₂ =>
              by_cases hn : n = 0
              · simp [readChunksFuel, hn]
              · have hpos : 0 < n := Nat.pos_of_ne_zero hn
                have hdrop : ((b :: rest).drop n).length ≤ rest.length := by
                  simp [List.length_drop]
                  omega
                simp only [readChunksFuel, if_neg hn]
                have := ih f₂ ((b :: rest).drop n)
                  (le_trans hdrop (Nat.lt_succ_iff.mp (Nat.lt_of_lt_of_le (Nat.lt_succ_self _) h₁)))
                  (le_trans hdrop (Nat.lt_succ_iff.mp (Nat.lt_of_lt_of_le (Nat.lt_succ_self _) h₂)))
                rw [this]

theorem readChunks_nil (n : Nat) : readChunks n [] = [] := rfl

theorem readChunks_cons (n : Nat) (l : List Nat) (hn : n ≠ 0) (hl : l ≠ []) :
    readChunks n l = l.take n :: readChunks n (l.drop n) := by
  cases l with
  | nil => exact absurd rfl hl
  | cons b rest =>
      show readChunksFuel n (rest.length + 1) (b :: rest) = _
      simp only [readChunksFuel, if_neg hn]
      have hdrop : ((b :: rest).drop n).length ≤ rest.length := by
        simp [List.length_drop]
        omega
      rw [readChunksFuel_congr n rest.length ((b :: rest).drop n).length
        ((b :: rest).drop n) hdrop (le_refl _)]
      rfl

theorem readChunks_flatten (n : Nat) (hn : 0 < n) (l : List Nat) :
    (readChunks n l).flatten = l := by
  generalize hN : l.length = N
  induction N using Nat.strong_induction_on generalizing l with
  | _ N ih =>
      cases l with
      | nil => simp [readChunks_nil]
      | cons b rest =>
          rw [readChunks_cons n (b :: rest) (Nat.pos_iff_ne_zero.mp hn) (by simp)]
          rw [List.flatten_cons]
          have hlt : ((b :: rest).drop n).length < N := by
            simp only [List.length_drop, List.length_cons] at hN ⊢
            omega
          rw [ih _ hlt _ rfl]
          exact List.take_append_drop n (b :: rest)

theorem readChunks_mem (n : Nat) (hn : 0 < n) (l : List Nat) :
    ∀ c ∈ readChunks n l, c ≠ [] ∧ c.length ≤ n := by
  generalize hN : l.length = N
  induction N using Nat.strong_induction_on generalizing l with
  | _ N ih =>
      cases l with
      | nil => simp [readChunks_nil]
      | cons b rest =>
          rw [readChunks_cons n (b :: rest) (Nat.pos_iff_ne_zero.mp hn) (by simp)]
          intro c hc
          rcases List.mem_cons.mp hc with hc | hc
          · subst hc
            constructor
            · have : 0 < ((b :: rest).take n).length := by
                simp [List.length_take]
                omega
              exact List.ne_nil_of_length_pos this
            · simp [List.length_take]
          · have hlt : ((b :: rest).drop n).length < N := by
              simp only [List.length_drop, List.length_cons] at hN ⊢
              omega
            exact ih _ hlt _ rfl c hc

theorem readChunks_dropLast (n : Nat) (l : List Nat) :
    ∀ c ∈ (readChunks n l).dropLast, c.length = n := by
  generalize hN : l.length = N
  induction N using Nat.strong_induction_on generalizing l with
  | _ N ih =>
      cases l with
      | nil => simp [readChunks_nil]
      | cons b rest =>
          by_cases hn : n = 0
          · subst hn
            intro c hc
            have : readChunks 0 (b :: rest) = [] := by
              show readChunksFuel 0 (rest.length + 1) (b :: rest) = []
              simp [readChunksFuel]
            simp [this] at hc
          · rw [readChunks_cons n (b :: rest) hn (by simp)]
            cases hrec : readChunks n ((b :: rest).drop n) with
            | nil => simp
            | cons c₂ t₂ =>
                rw [List.dropLast_cons₂]
                intro c hc
                rcases List.mem_cons.mp hc with hc | hc
                · subst hc
                  have hne : (b :: rest).drop n ≠ [] := by
                    intro hd
                    rw [hd, readChunks_nil] at hrec
                    exact List.cons_ne_nil _ _ hrec.symm
                  have hlen : n < (b :: rest).length := by
                    by_contra h
                    exact hne (List.drop_of_length_le (Nat.le_of_not_lt h))
                  simp only [List.length_cons] at hlen
                  simp only [List.length_take, List.length_cons]
                  omega
                · have hlt : ((b :: rest).drop n).length < N := by
                    simp only [List.length_drop, List.length_cons] at hN ⊢
                    omega
                  have := ih _ hlt ((b :: rest).drop n) rfl c
                  rw [hrec] at this
                  exact this hc

/-! Basic lemmas about traces. -/

theorem emitsOf_append (a b : List Event) :
    emitsOf (a ++ b) = emitsOf a ++ emitsOf b := by
  simp [emitsOf, List.filterMap_append]

theorem emitsOf_map_emit (fs : List AudioFrame) :
    emitsOf (fs.map Event.emit) = fs := by
  induction fs with
  | nil => rfl
  | cons f t ih => simp [emitsOf] at ih ⊢; exact ih

theorem run_append (sr : Nat) (l₁ l₂ : List (List Char × ProcResult))
    (h : (run sr l₁).2 = none) :
    run sr (l₁ ++ l₂) = ((run sr l₁).1 ++ (run sr l₂).1, (run sr l₂).2) := by
  induction l₁ with
  | nil => simp [run]
  | cons p t ih =>
      obtain ⟨seg, b⟩ := p
      cases hf : fragRun sr seg b with
      | mk es f =>
          cases f with
          | some e => simp [run, hf] at h
          | none =>
              simp only [run, hf] at h ⊢
              simp only [List.append_eq]
              rw [ih h]
              simp [List.append_assoc]

/-- With any realistic sample rate (at least 20 Hz, e.g. the default
22050 Hz) the nominal block size is positive. -/
theorem readSize_pos (sr : Nat) (h : 20 ≤ sr) : 0 < readSize sr := by
  have h1 : 1 ≤ sr / 20 := (Nat.one_le_div_iff (by norm_num)).mpr h
  have h2 : (0 : Nat) < BYTES_PER_SAMPLE := by decide
  exact Nat.mul_pos h1 h2

/-- The data bytes of the frames for one stream are exactly the blocks of
the read loop. -/
theorem framesOf_data (sr : Nat) (out : List Nat) :
    (framesOf sr out).map AudioFrame.data = readChunks (readSize sr) out := by
  simp only [framesOf, List.map_map]
  rw [show AudioFrame.data ∘ mkFrame sr = id from funext fun c => rfl, List.map_id]

/-- Concatenating the data of all frames for one stream recovers the
stream exactly. -/
theorem framesOf_data_flatten (sr : Nat) (h : 20 ≤ sr) (out : List Nat) :
    ((framesOf sr out).map AudioFrame.data).flatten = out := by
  rw [framesOf_data]
  exact readChunks_flatten _ (readSize_pos sr h) out

/-- C1: for every non-blank fragment, the adapter reads the process output
in blocks of `CHUNK_SAMPLES * BYTES_PER_SAMPLE` bytes and emits one frame
per non-empty block, whose data is that block's bytes (their concatenation
is the whole stream), whose sample rate and channel count are the
configured values, and whose `samples_per_channel` is the block length
integer-divided by `BYTES_PER_SAMPLE`; every block except possibly the
final partial one is full-size, and the partial final block is emitted
as-is. -/
theorem c1_fixed_size_blocks (sr : Nat) (synth : List Char → List Nat)
    (seg : List Char) (hsr : 20 ≤ sr) (hseg : isBlank seg = false) :
    ((ttsFragment sr synth seg).map AudioFrame.data).flatten = synth seg
    ∧ (∀ f ∈ ttsFragment sr synth seg,
        f.data ≠ [] ∧ f.data.length ≤ readSize sr ∧
        f.sample_rate = sr ∧ f.num_channels = PIPER_CH ∧
        f.samples_per_channel = f.data.length / BYTES_PER_SAMPLE)
    ∧ ∀ f ∈ (ttsFragment sr synth seg).dropLast,
        f.data.length = readSize sr := by
  have hfrag : ttsFragment sr synth seg = framesOf sr (synth seg) := by
    simp [ttsFragment, hseg]
  refine ⟨?_, ?_, ?_⟩
  · rw [hfrag]
    exact framesOf_data_flatten sr hsr (synth seg)
  · rw [hfrag]
    intro f hf
    simp only [framesOf, List.mem_map] at hf
    obtain ⟨c, hc, hcf⟩ := hf
    obtain ⟨hne, hle⟩ := readChunks_mem (readSize sr) (readSize_pos sr hsr) (synth seg) c hc
    subst hcf
    exact ⟨by simpa [mkFrame] using hne, by simpa [mkFrame] using hle, rfl, rfl, rfl⟩
  · rw [hfrag]
    intro f hf
    simp only [framesOf] at hf
    rw [← List.map_dropLast] at hf
    simp only [List.mem_map] at hf
    obtain ⟨c, hc, hcf⟩ := hf
    have := readChunks_dropLast (readSize sr) (synth seg) c hc
    subst hcf
    simpa [mkFrame] using this

/-- Witness for C1 at the default configuration: sample rate 22050,
fragment Hi, a 5-byte output stream. -/
theorem c1_fixed_size_blocks_witness :
    ((20 ≤ 22050 ∧ isBlank ['H', 'i'] = false) ∧
      (((ttsFragment 22050 (fun _ => [0, 1, 2, 3, 4]) ['H', 'i']).map
          AudioFrame.data).flatten = [0, 1, 2, 3, 4]
        ∧ (∀ f ∈ ttsFragment 22050 (fun _ => [0, 1, 2, 3, 4]) ['H', 'i'],
            f.data ≠ [] ∧ f.data.length ≤ readSize 22050 ∧
            f.sample_rate = 22050 ∧ f.num_channels = PIPER_CH ∧
            f.samples_per_channel = f.data.length / BYTES_PER_SAMPLE)
        ∧ ∀ f ∈ (ttsFragment 22050 (fun _ => [0, 1, 2, 3, 4]) ['H', 'i']).dropLast,
            f.data.length = readSize 22050)) :=
  ⟨⟨by norm_num, by decide⟩,
    c1_fixed_size_blocks 22050 (fun _ => [0, 1, 2, 3, 4]) ['H', 'i']
      (by norm_num) (by decide)⟩

/-- C10: for every non-blank fragment whose process completes normally,
the concatenation of the emitted frames' data bytes equals the complete
output stream of the process — no byte padded, dropped, duplicated or
reordered, including a trailing odd byte of an uneven final block. -/
theorem c10_stream_preserved (sr : Nat) (synth : List Char → List Nat)
    (seg : List Char) (hsr : 20 ≤ sr) (hseg : isBlank seg = false) :
    ((ttsFragment sr synth seg).map AudioFrame.data).flatten = synth seg := by
  have hfrag : ttsFragment sr synth seg = framesOf sr (synth seg) := by
    simp [ttsFragment, hseg]
  rw [hfrag]
  exact framesOf_data_flatten sr hsr (synth seg)

/-- Witness for C10: a 3-byte stream (uneven final block) is reproduced
exactly by the single emitted frame. -/
theorem c10_stream_preserved_witness :
    (20 ≤ 22050 ∧ isBlank ['O', 'k'] = false) ∧
      ((ttsFragment 22050 (fun _ => [9, 8, 7]) ['O', 'k']).map
        AudioFrame.data).flatten = [9, 8, 7] :=
  ⟨⟨by norm_num, by decide⟩,
    c10_stream_preserved 22050 (fun _ => [9, 8, 7]) ['O', 'k']
      (by norm_num) (by decide)⟩

/-- C2 counterexample: when the final block read from the process has 3
bytes, the emitted frame has `data.length = 3` but
`samples_per_channel * channel_count * bytes_per_sample = 1 * 1 * 2 = 2`,
so the claimed invariant fails for that frame. -/
theorem c2_counterexample :
    ¬ (∀ f ∈ ttsFragment 22050 (fun _ => [0, 0, 0]) ['H', 'i'],
        f.data.length = f.samples_per_channel * PIPER_CH * BYTES_PER_SAMPLE) := by
  decide

/-- C2 (amended): every emitted frame has
`samples_per_channel = data.length / BYTES_PER_SAMPLE` (integer division),
hence `data.length = samples_per_channel * PIPER_CH * BYTES_PER_SAMPLE +
data.length % BYTES_PER_SAMPLE`; the claimed equality
`len = spc * ch * bps` holds exactly when the block length is a multiple
of `BYTES_PER_SAMPLE` — a 3-byte final block keeps all 3 bytes in `data`
but counts only 1 sample. -/
theorem c2_frame_length_invariant (sr : Nat) (synth : List Char → List Nat)
    (seg : List Char) (f : AudioFrame) (hf : f ∈ ttsFragment sr synth seg) :
    f.samples_per_channel = f.data.length / BYTES_PER_SAMPLE
    ∧ f.data.length =
        f.samples_per_channel * PIPER_CH * BYTES_PER_SAMPLE +
          f.data.length % BYTES_PER_SAMPLE
    ∧ (f.data.length % BYTES_PER_SAMPLE = 0 →
        f.data.length = f.samples_per_channel * PIPER_CH * BYTES_PER_SAMPLE) := by
  by_cases hb : isBlank seg
  · simp [ttsFragment, hb] at hf
  · simp only [ttsFragment, if_neg hb, framesOf, List.mem_map] at hf
    obtain ⟨c, _, hcf⟩ := hf
    subst hcf
    refine ⟨rfl, ?_, ?_⟩ <;> simp [mkFrame, BYTES_PER_SAMPLE, PIPER_CH] <;> omega

/-- Witness for the amended C2 at a concrete odd-length frame. -/
theorem c2_frame_length_invariant_witness :
    (mkFrame 22050 [1, 2, 3] ∈ ttsFragment 22050 (fun _ => [1, 2, 3]) ['H', 'i'])
    ∧ ((mkFrame 22050 [1, 2, 3]).samples_per_channel =
          (mkFrame 22050 [1, 2, 3]).data.length / BYTES_PER_SAMPLE
      ∧ (mkFrame 22050 [1, 2, 3]).data.length =
          (mkFrame 22050 [1, 2, 3]).samples_per_channel * PIPER_CH * BYTES_PER_SAMPLE +
            (mkFrame 22050 [1, 2, 3]).data.length % BYTES_PER_SAMPLE
      ∧ ((mkFrame 22050 [1, 2, 3]).data.length % BYTES_PER_SAMPLE = 0 →
          (mkFrame 22050 [1, 2, 3]).data.length =
            (mkFrame 22050 [1, 2, 3]).samples_per_channel * PIPER_CH * BYTES_PER_SAMPLE)) :=
  ⟨by decide,
    c2_frame_length_invariant 22050 (fun _ => [1, 2, 3]) ['H', 'i']
      (mkFrame 22050 [1, 2, 3]) (by decide)⟩

/-- C7 counterexample: for a non-blank fragment whose process writes 3
bytes, the sum of the emitted frame byte lengths is 3, which is not a
multiple of `BYTES_PER_SAMPLE = 2`. -/
theorem c7_counterexample :
    ¬ (BYTES_PER_SAMPLE ∣
        ((ttsFragment 22050 (fun _ => [7, 7, 7]) ['H', 'e', 'y']).map
          (fun f => f.data.length)).sum) := by
  decide

/-- C7 (amended): for every non-blank fragment, the sum of the emitted
frame byte lengths equals the total length of the process output stream —
so it is a multiple of `BYTES_PER_SAMPLE` whenever the stream length is
(as for genuine 16-bit PCM output) — and every frame's
`samples_per_channel` is its byte length integer-divided by
`BYTES_PER_SAMPLE`. -/
theorem c7_total_length (sr : Nat) (synth : List Char → List Nat)
    (seg : List Char) (hsr : 20 ≤ sr) (hseg : isBlank seg = false) :
    ((ttsFragment sr synth seg).map (fun f => f.data.length)).sum =
      (synth seg).length
    ∧ (BYTES_PER_SAMPLE ∣ (synth seg).length →
        BYTES_PER_SAMPLE ∣
          ((ttsFragment sr synth seg).map (fun f => f.data.length)).sum)
    ∧ ∀ f ∈ ttsFragment sr synth seg,
        f.samples_per_channel = f.data.length / BYTES_PER_SAMPLE := by
  have hfrag : ttsFragment sr synth seg = framesOf sr (synth seg) := by
    simp [ttsFragment, hseg]
  have hsum : ((ttsFragment sr synth seg).map (fun f => f.data.length)).sum =
      (synth seg).length := by
    have hflat := framesOf_data_flatten sr hsr (synth seg)
    have hlen := List.length_flatten ((framesOf sr (synth seg)).map AudioFrame.data)
    rw [hflat, List.map_map] at hlen
    rw [hfrag]
    exact hlen.symm
  refine ⟨hsum, fun hd => hsum ▸ hd, ?_⟩
  intro f hf
  rw [hfrag] at hf
  simp only [framesOf, List.mem_map] at hf
  obtain ⟨c, _, hcf⟩ := hf
  subst hcf
  rfl

/-- Witness for the amended C7 at the default configuration and a 5-byte
stream. -/
theorem c7_total_length_witness :
    (20 ≤ 22050 ∧ isBlank ['H', 'e', 'y'] = false) ∧
      (((ttsFragment 22050 (fun _ => [1, 2, 3, 4, 5]) ['H', 'e', 'y']).map
          (fun f => f.data.length)).sum = 5
        ∧ (BYTES_PER_SAMPLE ∣ (5 : Nat) →
            BYTES_PER_SAMPLE ∣
              ((ttsFragment 22050 (fun _ => [1, 2, 3, 4, 5]) ['H', 'e', 'y']).map
                (fun f => f.data.length)).sum)
        ∧ ∀ f ∈ ttsFragment 22050 (fun _ => [1, 2, 3, 4, 5]) ['H', 'e', 'y'],
            f.samples_per_channel = f.data.length / BYTES_PER_SAMPLE) :=
  ⟨⟨by norm_num, by decide⟩,
    c7_total_length 22050 (fun _ => [1, 2, 3, 4, 5]) ['H', 'e', 'y']
      (by norm_num) (by decide)⟩

/-- The frames one successful fragment iteration yields come from that
fragment's process output alone. -/
theorem emitsOf_frag_ok (sr : Nat) (seg : List Char) (out : List Nat) (code : Nat) :
    emitsOf (fragRun sr seg (ProcResult.ok out code)).1 =
      if isBlank seg then [] else framesOf sr out := by
  by_cases hb : isBlank seg
  · simp [fragRun, hb, emitsOf]
  · simp only [fragRun, hb, Bool.false_eq_true, if_false]
    show emitsOf (Event.spawn :: Event.write ::
      ((framesOf sr out).map Event.emit ++ [Event.wait])) = _
    simp [emitsOf, List.filterMap_append, List.filterMap_cons]
    have := emitsOf_map_emit (framesOf sr out)
    simpa [emitsOf] using this

/-- Running all fragments with successfully completing processes yields
exactly the frames of `tts_node`. -/
theorem run_ok_emits (sr : Nat) (synth : List Char → List Nat)
    (frags : List (List Char)) :
    emitsOf (run sr (frags.map (fun seg => (seg, ProcResult.ok (synth seg) 0)))).1 =
      tts_node sr synth frags := by
  induction frags with
  | nil => rfl
  | cons seg t ih =>
      by_cases hb : isBlank seg
      · have hfr : fragRun sr seg (ProcResult.ok (synth seg) 0) = ([], none) := by
          simp [fragRun, hb]
        simp only [List.map_cons, run, hfr]
        simpa [tts_node, ttsFragment, hb] using ih
      · have hfr : fragRun sr seg (ProcResult.ok (synth seg) 0) =
            (Event.spawn :: Event.write ::
              ((framesOf sr (synth seg)).map Event.emit ++ [Event.wait]), none) := by
          simp [fragRun, hb]
        simp only [List.map_cons, run, hfr]
        rw [emitsOf_append]
        have h1 : emitsOf (Event.spawn :: Event.write ::
            ((framesOf sr (synth seg)).map Event.emit ++ [Event.wait])) =
            framesOf sr (synth seg) := by
          simp [emitsOf, List.filterMap_append, List.filterMap_cons]
          have := emitsOf_map_emit (framesOf sr (synth seg))
          simpa [emitsOf] using this
        rw [h1, ih]
        simp [tts_node, ttsFragment, hb]

/-- C3: frames follow fragment order and processing is strictly
sequential: for any split of the fragment sequence whose first part
succeeds, the whole trace is the first part's trace followed by the second
part's (so every event of an earlier fragment — including each emitted
frame — precedes every event of a later one, including its spawn), the
frames of one fragment come from that fragment's process output alone,
and the frames of a fully successful call are the per-fragment frame
lists of `tts_node` concatenated in fragment order. -/
theorem c3_fragment_order (sr : Nat) (l₁ l₂ : List (List Char × ProcResult))
    (h : (run sr l₁).2 = none) :
    (run sr (l₁ ++ l₂)).1 = (run sr l₁).1 ++ (run sr l₂).1
    ∧ emitsOf (run sr (l₁ ++ l₂)).1 =
        emitsOf (run sr l₁).1 ++ emitsOf (run sr l₂).1
    ∧ (∀ seg out code, emitsOf (fragRun sr seg (ProcResult.ok out code)).1 =
        if isBlank seg then [] else framesOf sr out)
    ∧ ∀ synth frags,
        emitsOf (run sr (frags.map (fun seg => (seg, ProcResult.ok (synth seg) 0)))).1 =
          tts_node sr synth frags := by
  have happ := run_append sr l₁ l₂ h
  refine ⟨by rw [happ], ?_, ?_, ?_⟩
  · rw [happ]
    exact emitsOf_append _ _
  · intro seg out code
    exact emitsOf_frag_ok sr seg out code
  · intro synth frags
    exact run_ok_emits sr synth frags

/-- Witness for C3 at a concrete two-fragment split. -/
theorem c3_fragment_order_witness :
    ((run 22050 [(['a'], ProcResult.ok [1, 2] 0)]).2 = none) ∧
      ((run 22050 ([(['a'], ProcResult.ok [1, 2] 0)] ++ [(['b'], ProcResult.ok [3] 0)])).1 =
          (run 22050 [(['a'], ProcResult.ok [1, 2] 0)]).1 ++
            (run 22050 [(['b'], ProcResult.ok [3] 0)]).1
        ∧ emitsOf (run 22050 ([(['a'], ProcResult.ok [1, 2] 0)] ++
              [(['b'], ProcResult.ok [3] 0)])).1 =
            emitsOf (run 22050 [(['a'], ProcResult.ok [1, 2] 0)]).1 ++
              emitsOf (run 22050 [(['b'], ProcResult.ok [3] 0)]).1
        ∧ (∀ seg out code,
            emitsOf (fragRun 22050 seg (ProcResult.ok out code)).1 =
              if isBlank seg then [] else framesOf 22050 out)
        ∧ ∀ synth frags,
            emitsOf (run 22050 (frags.map (fun seg => (seg, ProcResult.ok (synth seg) 0)))).1 =
              tts_node 22050 synth frags) :=
  ⟨by decide,
    c3_fragment_order 22050 [(['a'], ProcResult.ok [1, 2] 0)]
      [(['b'], ProcResult.ok [3] 0)] (by decide)⟩

/-- C4: an empty or whitespace-only fragment is skipped entirely: no
process is spawned, no frame is emitted, no failure is raised, and the
call proceeds directly to the remaining fragments. -/
theorem c4_blank_skipped (sr : Nat) (seg : List Char) (b : ProcResult)
    (rest : List (List Char × ProcResult)) (synth : List Char → List Nat)
    (hseg : isBlank seg = true) :
    fragRun sr seg b = ([], none)
    ∧ emitsOf (fragRun sr seg b).1 = []
    ∧ spawnCount (fragRun sr seg b).1 = 0
    ∧ run sr ((seg, b) :: rest) = run sr rest
    ∧ ttsFragment sr synth seg = [] := by
  have hfr : fragRun sr seg b = ([], none) := by simp [fragRun, hseg]
  refine ⟨hfr, by simp [hfr, emitsOf], by simp [hfr, spawnCount], ?_, ?_⟩
  · simp [run, hfr]
  · simp [ttsFragment, hseg]

/-- Witness for C4 at the whitespace fragment of the spec's scenario. -/
theorem c4_blank_skipped_witness :
    (isBlank [' ', ' '] = true) ∧
      (fragRun 22050 [' ', ' '] (ProcResult.ok [1, 2] 0) = ([], none)
        ∧ emitsOf (fragRun 22050 [' ', ' '] (ProcResult.ok [1, 2] 0)).1 = []
        ∧ spawnCount (fragRun 22050 [' ', ' '] (ProcResult.ok [1, 2] 0)).1 = 0
        ∧ run 22050 ([(' '::[' '], ProcResult.ok [1, 2] 0)] ++ [(['H', 'i'], ProcResult.ok [9] 0)]) =
            run 22050 [(['H', 'i'], ProcResult.ok [9] 0)]
        ∧ ttsFragment 22050 (fun _ => [1, 2]) [' ', ' '] = []) :=
  ⟨by decide,
    c4_blank_skipped 22050 [' ', ' '] (ProcResult.ok [1, 2] 0)
      [(['H', 'i'], ProcResult.ok [9] 0)] (fun _ => [1, 2]) (by decide)⟩

/-- C5 counterexample: when a read of the output stream fails mid-stream,
the generator propagates the failure without ever awaiting the process:
the trace of the call contains no `wait`, so the process resource is not
released on that exit path. -/
theorem c5_counterexample :
    (run 22050 [(['H', 'i'], ProcResult.readFail [3, 1, 4])]).2 = some Failure.read
    ∧ Event.wait ∉ (run 22050 [(['H', 'i'], ProcResult.readFail [3, 1, 4])]).1 := by
  decide

/-- C5 (amended): for every non-blank fragment whose output stream ends
normally, awaiting the process is the last per-fragment action and
happens before any event of the following fragments; but on a mid-stream
read failure the failure propagates without a `wait` — the read loop has
no try/finally, so the process is not awaited on that exit path. -/
theorem c5_wait_before_next (sr : Nat) (seg : List Char) (out : List Nat)
    (code : Nat) (preBy : List Nat) (rest : List (List Char × ProcResult))
    (hseg : isBlank seg = false) :
    (fragRun sr seg (ProcResult.ok out code)).1.getLast? = some Event.wait
    ∧ run sr ((seg, ProcResult.ok out code) :: rest) =
        ((fragRun sr seg (ProcResult.ok out code)).1 ++ (run sr rest).1,
          (run sr rest).2)
    ∧ Event.wait ∉ (fragRun sr seg (ProcResult.readFail preBy)).1 := by
  have hfr : fragRun sr seg (ProcResult.ok out code) =
      (Event.spawn :: Event.write ::
        ((framesOf sr out).map Event.emit ++ [Event.wait]), none) := by
    simp [fragRun, hseg]
  refine ⟨?_, ?_, ?_⟩
  · rw [hfr]
    show (((Event.spawn :: Event.write :: (framesOf sr out).map Event.emit) ++
        [Event.wait]).getLast?) = some Event.wait
    rw [List.getLast?_concat]
  · simp [run, hfr]
  · simp only [fragRun, hseg, Bool.false_eq_true, if_false]
    intro hmem
    rcases List.mem_cons.mp hmem with h | h
    · exact Event.noConfusion h
    rcases List.mem_cons.mp h with h | h
    · exact Event.noConfusion h
    rcases List.mem_map.mp h with ⟨f, _, hf⟩
    exact Event.noConfusion hf

/-- Witness for the amended C5 at a concrete fragment and stream. -/
theorem c5_wait_before_next_witness :
    (isBlank ['H', 'i'] = false) ∧
      ((fragRun 22050 ['H', 'i'] (ProcResult.ok [1, 2] 7)).1.getLast? = some Event.wait
        ∧ run 22050 [(['H', 'i'], ProcResult.ok [1, 2] 7), (['a'], ProcResult.ok [3] 0)] =
            ((fragRun 22050 ['H', 'i'] (ProcResult.ok [1, 2] 7)).1 ++
                (run 22050 [(['a'], ProcResult.ok [3] 0)]).1,
              (run 22050 [(['a'], ProcResult.ok [3] 0)]).2)
        ∧ Event.wait ∉ (fragRun 22050 ['H', 'i'] (ProcResult.readFail [5])).1) :=
  ⟨by decide,
    c5_wait_before_next 22050 ['H', 'i'] [1, 2] 7 [5]
      [(['a'], ProcResult.ok [3] 0)] (by decide)⟩

/-- C6: a launch or write failure on a non-blank fragment propagates to
the caller: the call fails with that fragment's failure, emits no frame
for the failing fragment (a launch failure produces no event at all),
keeps all frames already emitted for earlier fragments, and does not
continue to the remaining fragments. -/
theorem c6_launch_write_failure (sr : Nat)
    (l₁ : List (List Char × ProcResult)) (seg : List Char) (b : ProcResult)
    (rest : List (List Char × ProcResult))
    (h₁ : (run sr l₁).2 = none) (hseg : isBlank seg = false)
    (hb : b = ProcResult.launchFail ∨ b = ProcResult.writeFail) :
    run sr (l₁ ++ (seg, b) :: rest) =
        ((run sr l₁).1 ++ (fragRun sr seg b).1, (fragRun sr seg b).2)
    ∧ (fragRun sr seg b).2.isSome = true
    ∧ emitsOf (fragRun sr seg b).1 = []
    ∧ (b = ProcResult.launchFail → (fragRun sr seg b).1 = []) := by
  have happ := run_append sr l₁ ((seg, b) :: rest) h₁
  rcases hb with hb | hb <;> subst hb
  · have hfr : fragRun sr seg ProcResult.launchFail = ([], some Failure.launch) := by
      simp [fragRun, hseg]
    refine ⟨?_, by simp [hfr], by simp [hfr, emitsOf], fun _ => by simp [hfr]⟩
    rw [happ]
    simp [run, hfr]
  · have hfr : fragRun sr seg ProcResult.writeFail =
        ([Event.spawn], some Failure.write) := by
      simp [fragRun, hseg]
    refine ⟨?_, by simp [hfr], by simp [hfr, emitsOf], fun hcontra => by
      exact ProcResult.noConfusion hcontra⟩
    rw [happ]
    simp [run, hfr]

/-- Witness for C6: fragment 1 succeeds with two frames already
delivered, fragment 2 fails to launch, fragment 3 is never processed. -/
theorem c6_launch_write_failure_witness :
    ((run 22050 [(['a'], ProcResult.ok [1, 2] 0)]).2 = none
      ∧ isBlank ['b'] = false
      ∧ (ProcResult.launchFail = ProcResult.launchFail ∨
          ProcResult.launchFail = ProcResult.writeFail)) ∧
      (run 22050 ([(['a'], ProcResult.ok [1, 2] 0)] ++
          (['b'], ProcResult.launchFail) :: [(['c'], ProcResult.ok [9] 0)]) =
          ((run 22050 [(['a'], ProcResult.ok [1, 2] 0)]).1 ++
              (fragRun 22050 ['b'] ProcResult.launchFail).1,
            (fragRun 22050 ['b'] ProcResult.launchFail).2)
        ∧ (fragRun 22050 ['b'] ProcResult.launchFail).2.isSome = true
        ∧ emitsOf (fragRun 22050 ['b'] ProcResult.launchFail).1 = []
        ∧ (ProcResult.launchFail = ProcResult.launchFail →
            (fragRun 22050 ['b'] ProcResult.launchFail).1 = [])) :=
  ⟨⟨by decide, by decide, Or.inl rfl⟩,
    c6_launch_write_failure 22050 [(['a'], ProcResult.ok [1, 2] 0)] ['b']
      ProcResult.launchFail [(['c'], ProcResult.ok [9] 0)]
      (by decide) (by decide) (Or.inl rfl)⟩

/-- C8: the exit status of the synthesis process is never inspected: for
a non-blank fragment whose stream completes, the whole observable
behaviour is identical for any two exit codes, the call treats the
fragment as successful (no failure) for every exit code, and the emitted
frames are determined solely by the output bytes. -/
theorem c8_exit_status_ignored (sr : Nat) (seg : List Char) (out : List Nat)
    (c₁ c₂ : Nat) (hseg : isBlank seg = false) :
    fragRun sr seg (ProcResult.ok out c₁) = fragRun sr seg (ProcResult.ok out c₂)
    ∧ (fragRun sr seg (ProcResult.ok out c₁)).2 = none
    ∧ emitsOf (fragRun sr seg (ProcResult.ok out c₁)).1 = framesOf sr out := by
  refine ⟨by simp [fragRun], by simp [fragRun, hseg], ?_⟩
  rw [emitsOf_frag_ok]
  simp [hseg]

/-- Witness for C8 at exit codes 0 and 1. -/
theorem c8_exit_status_ignored_witness :
    (isBlank ['H', 'i'] = false) ∧
      (fragRun 22050 ['H', 'i'] (ProcResult.ok [4, 5] 0) =
          fragRun 22050 ['H', 'i'] (ProcResult.ok [4, 5] 1)
        ∧ (fragRun 22050 ['H', 'i'] (ProcResult.ok [4, 5] 0)).2 = none
        ∧ emitsOf (fragRun 22050 ['H', 'i'] (ProcResult.ok [4, 5] 0)).1 =
            framesOf 22050 [4, 5]) :=
  ⟨by decide, c8_exit_status_ignored 22050 ['H', 'i'] [4, 5] 0 1 (by decide)⟩

/-- C9: two invocations with the same fragment sequence and configuration
yield frame sequences with identical byte lengths at every position,
whenever the external synthesizer produces the same output stream for the
same text (the byte-identical conclusion holds as well, so in particular
the lengths match). -/
theorem c9_idempotent_lengths (sr : Nat) (synth₁ synth₂ : List Char → List Nat)
    (frags : List (List Char))
    (h : ∀ seg ∈ frags, synth₁ seg = synth₂ seg) :
    (tts_node sr synth₁ frags).map (fun f => f.data.length) =
      (tts_node sr synth₂ frags).map (fun f => f.data.length) := by
  have heq : tts_node sr synth₁ frags = tts_node sr synth₂ frags := by
    induction frags with
    | nil => rfl
    | cons seg t ih =>
        have hseg := h seg (List.mem_cons_self seg t)
        have ht : ∀ s ∈ t, synth₁ s = synth₂ s :=
          fun s hs => h s (List.mem_cons_of_mem seg hs)
        simp only [tts_node, List.map_cons, List.flatten_cons]
        rw [show ttsFragment sr synth₁ seg = ttsFragment sr synth₂ seg by
          simp [ttsFragment, hseg]]
        rw [show ((t.map (ttsFragment sr synth₁)).flatten) =
            ((t.map (ttsFragment sr synth₂)).flatten) from ih ht]
  rw [heq]

/-- Witness for C9: two extensionally different oracles that agree on the
fragments of the call. -/
theorem c9_idempotent_lengths_witness :
    (∀ seg ∈ [['x']], (fun _ => [1, 2] : List Char → List Nat) seg =
        (fun s => if s = ['x'] then [1, 2] else []) seg) ∧
      (tts_node 22050 (fun _ => [1, 2]) [['x']]).map (fun f => f.data.length) =
        (tts_node 22050 (fun s => if s = ['x'] then [1, 2] else []) [['x']]).map
          (fun f => f.data.length) :=
  ⟨by decide,
    c9_idempotent_lengths 22050 (fun _ => [1, 2])
      (fun s => if s = ['x'] then [1, 2] else []) [['x']] (by decide)⟩
